import Mathlib

/-!
Verification of the message batching and durable delivery queue of the
go-todo-bot repository, together with its `cmd/bot/main.go` entry point.

The repository snapshot contains only `cmd/bot/main.go`; the core packages
(`internal/queue`, `internal/telegram`, `internal/config`, ...) are not in
the snapshot, so the queue/batch/delivery core is modelled from the
specification (each such definition's doc comment starts with
`Modelled from the spec:`).  The `main` entry point is embedded directly
from `cmd/bot/main.go`.
-/

set_option maxHeartbeats 1000000

/-- Modelled from the spec: policy configuration of the batching core
(§4.2, §4.3): `idle_window` (default 30s), `max_batch_size` (default 10),
`max_attempts` (default 5), backoff base (default 2s) and backoff cap
(e.g. 5 minutes = 300s).  Timestamps and durations are in whole seconds. -/
structure QCfg where
  idle_window : Nat
  max_batch_size : Nat
  max_attempts : Nat
  backoff_base : Nat
  backoff_cap : Nat
deriving Repr, DecidableEq

/-- Modelled from the spec: the default policy values. -/
def defaultQCfg : QCfg :=
  { idle_window := 30, max_batch_size := 10, max_attempts := 5
    backoff_base := 2, backoff_cap := 300 }

/-- Modelled from the spec (§4.3): exponential backoff
`base * 2^(attempt_count-1)` capped at a maximum.  (Jitter is mentioned by
the spec but is irrelevant to the monotonicity claims; we take the
deterministic base schedule.) -/
def QCfg.backoff (cfg : QCfg) (attempt_count : Nat) : Nat :=
  min (cfg.backoff_base * 2 ^ (attempt_count - 1)) cfg.backoff_cap

/-- Modelled from the spec (§3): a Message record.  `id` is an opaque
string, immutable once stored. -/
structure Message where
  id : String
  conversation_id : String
  text : String
  received_at : Nat
deriving Repr, DecidableEq

/-- Modelled from the spec (§3): the Batch state enum. -/
inductive BState
  | OPEN
  | CLOSED
  | PROCESSING
  | DELIVERED
  | FAILED
deriving Repr, DecidableEq

/-- Modelled from the spec (§3): a Batch record.  `batch_id` is an opaque
identifier, modelled as a `Nat` so fresh ids can be generated. -/
structure Batch where
  batch_id : Nat
  conversation_id : String
  message_ids : List String
  bstate : BState
  attempt_count : Nat
  next_attempt_at : Nat
  created_at : Nat
deriving Repr, DecidableEq

/-- Modelled from the spec (§2, §4, §5): the whole queue-manager state.
`batches` and `messages` are the Durable Store contents; `deadlines` is the
Batch Accumulator's in-memory per-conversation inactivity deadline;
`inFlight` records which worker currently holds which batch (pairs
`(worker_id, batch_id)`); `sink` is the external delivery collaborator's
durable record list (pairs `(batch_id, items)`), which the spec requires
to deduplicate by `batch_id` (§4.4 idempotency). -/
structure QMState where
  now : Nat
  nextBatchId : Nat
  batches : List Batch
  messages : List Message
  deadlines : List (String × Nat)
  inFlight : List (Nat × Nat)
  sink : List (Nat × List String)
deriving Repr, DecidableEq

/-- Modelled from the spec: the initial (empty) queue-manager state. -/
def initQM : QMState :=
  { now := 0, nextBatchId := 0, batches := [], messages := []
    deadlines := [], inFlight := [], sink := [] }

/-- Is `b` the OPEN batch of conversation `conv`? -/
def isOpenFor (conv : String) (b : Batch) : Bool :=
  decide (b.conversation_id = conv ∧ b.bstate = BState.OPEN)

/-- Find the OPEN batch of a conversation, if any. -/
def findOpenBatch (batches : List Batch) (conv : String) : Option Batch :=
  batches.find? (isOpenFor conv)

/-- Replace the record with the given id (all records carrying that id). -/
def updateBatch (batches : List Batch) (id : Nat) (f : Batch → Batch) :
    List Batch :=
  batches.map (fun b => if b.batch_id = id then f b else b)

/-- Set a conversation's inactivity deadline, replacing any previous one. -/
def setDeadline (ds : List (String × Nat)) (conv : String) (d : Nat) :
    List (String × Nat) :=
  (conv, d) :: ds.filter (fun p => decide (p.1 ≠ conv))

/-- Drop a conversation's inactivity deadline. -/
def dropDeadline (ds : List (String × Nat)) (conv : String) :
    List (String × Nat) :=
  ds.filter (fun p => decide (p.1 ≠ conv))

/-- Modelled from the spec (§4.2): `Add(conversation_id, message)`.
Persists the message, appends it to the conversation's OPEN batch
(creating one if absent), resets the inactivity deadline to
`now + idle_window`, and immediately flushes (closes) the batch if its
message count reaches `max_batch_size`.  Returns the new state together
with `{batch_id, flushed}`. -/
def QMState.Add (s : QMState) (cfg : QCfg) (now : Nat) (conv : String)
    (msg : Message) : QMState × Nat × Bool :=
  match findOpenBatch s.batches conv with
  | some b =>
      let ids := b.message_ids ++ [msg.id]
      let flushed := decide (cfg.max_batch_size ≤ ids.length)
      let nb := { b with message_ids := ids
                         bstate := if flushed then BState.CLOSED else BState.OPEN }
      ({ s with now := now
                messages := s.messages ++ [msg]
                batches := updateBatch s.batches b.batch_id (fun _ => nb)
                deadlines :=
                  if flushed then dropDeadline s.deadlines conv
                  else setDeadline s.deadlines conv (now + cfg.idle_window) },
       b.batch_id, flushed)
  | none =>
      let flushed := decide (cfg.max_batch_size ≤ 1)
      let nb : Batch :=
        { batch_id := s.nextBatchId, conversation_id := conv
          message_ids := [msg.id]
          bstate := if flushed then BState.CLOSED else BState.OPEN
          attempt_count := 0, next_attempt_at := 0, created_at := now }
      ({ s with now := now
                nextBatchId := s.nextBatchId + 1
                messages := s.messages ++ [msg]
                batches := s.batches ++ [nb]
                deadlines :=
                  if flushed then dropDeadline s.deadlines conv
                  else setDeadline s.deadlines conv (now + cfg.idle_window) },
       s.nextBatchId, flushed)

/-- Conversations whose inactivity deadline has elapsed at time `now`. -/
def expiredConvs (ds : List (String × Nat)) (now : Nat) : List String :=
  (ds.filter (fun p => decide (p.2 ≤ now))).map Prod.fst

/-- Modelled from the spec (§4.2): `TickExpired(now)` — every OPEN batch
whose conversation's inactivity deadline has elapsed transitions
OPEN → CLOSED; returns the new state and the list of closed batch ids. -/
def QMState.TickExpired (s : QMState) (now : Nat) : QMState × List Nat :=
  let ex := expiredConvs s.deadlines now
  let closing := s.batches.filter
    (fun b => decide (b.bstate = BState.OPEN ∧ b.conversation_id ∈ ex))
  ({ s with now := now
            batches := s.batches.map
              (fun b =>
                if b.bstate = BState.OPEN ∧ b.conversation_id ∈ ex then
                  { b with bstate := BState.CLOSED }
                else b)
            deadlines := s.deadlines.filter (fun p => decide (now < p.2)) },
   closing.map Batch.batch_id)

/-- Look a Batch record up by id in the Durable Store. -/
def getBatch (s : QMState) (bid : Nat) : Option Batch :=
  s.batches.find? (fun b => decide (b.batch_id = bid))

/-- Does the delivery collaborator already hold a record for `bid`? -/
def sinkHas (sink : List (Nat × List String)) (bid : Nat) : Bool :=
  sink.any (fun p => decide (p.1 = bid))

/-- Modelled from the spec (§4.4): the delivery collaborator
`Append(batch_id, items)` is safe to repeat for the same `batch_id` — it
deduplicates by `batch_id`, appending a record only when none exists yet. -/
def sinkAppend (sink : List (Nat × List String)) (bid : Nat)
    (items : List String) : List (Nat × List String) :=
  if sinkHas sink bid then sink else sink ++ [(bid, items)]

/-- How many delivered records the sink holds for a given `batch_id`. -/
def sinkCount (sink : List (Nat × List String)) (bid : Nat) : Nat :=
  (sink.filter (fun p => decide (p.1 = bid))).length

/-- Modelled from the spec (§4.3): CLOSED → PROCESSING — a worker picks the
batch up, `attempt_count += 1`, and the Queue Manager records the worker as
holding this batch. -/
def QMState.dispatch (s : QMState) (now : Nat) (w : Nat) (bid : Nat) :
    QMState :=
  { s with now := now
           batches := updateBatch s.batches bid (fun b =>
             { b with bstate := BState.PROCESSING
                      attempt_count := b.attempt_count + 1 })
           inFlight := (w, bid) :: s.inFlight }

/-- Modelled from the spec (§4.4): the moment the delivery collaborator call
succeeds — the sink durably holds the batch's items.  This happens strictly
before the DELIVERED state is persisted, which is why a crash can fall in
between. -/
def QMState.deliverCall (s : QMState) (bid : Nat) (items : List String) :
    QMState :=
  { s with sink := sinkAppend s.sink bid items }

/-- Modelled from the spec (§4.3): PROCESSING → DELIVERED — persisted after
extraction and delivery both succeeded; constituent Messages are deleted
from the Durable Store (the Batch record is archived as DELIVERED) and the
worker releases the batch. -/
def QMState.persistDelivered (s : QMState) (now : Nat) (bid : Nat) :
    QMState :=
  let mids := (getBatch s bid).elim [] Batch.message_ids
  { s with now := now
           batches := updateBatch s.batches bid (fun b =>
             { b with bstate := BState.DELIVERED })
           messages := s.messages.filter (fun m => decide (m.id ∉ mids))
           inFlight := s.inFlight.filter (fun p => decide (p.2 ≠ bid)) }

/-- Modelled from the spec (§4.3): PROCESSING after a retryable error —
either FAILED(permanent) when `attempt_count` exceeds `max_attempts`, or
FAILED(transient): `next_attempt_at = now + backoff(attempt_count)` and the
state reverts to CLOSED so it is re-picked after the delay. -/
def QMState.failTransient (s : QMState) (cfg : QCfg) (now : Nat) (bid : Nat) :
    QMState :=
  { s with now := now
           batches := updateBatch s.batches bid (fun b =>
             if cfg.max_attempts < b.attempt_count then
               { b with bstate := BState.FAILED }
             else
               { b with bstate := BState.CLOSED
                        next_attempt_at := now + cfg.backoff b.attempt_count })
           inFlight := s.inFlight.filter (fun p => decide (p.2 ≠ bid)) }

/-- Modelled from the spec (§4.3): PROCESSING → FAILED(permanent) — the
error is classified non-retryable; the batch becomes a dead-letter record. -/
def QMState.failPermanent (s : QMState) (now : Nat) (bid : Nat) : QMState :=
  { s with now := now
           batches := updateBatch s.batches bid (fun b =>
             { b with bstate := BState.FAILED })
           inFlight := s.inFlight.filter (fun p => decide (p.2 ≠ bid)) }

/-- Modelled from the spec: a crash loses all in-memory state (worker
assignments, accumulator deadlines) but leaves the Durable Store (Batch and
Message records) and the external sink intact. -/
def QMState.crash (s : QMState) : QMState :=
  { s with deadlines := [], inFlight := [] }

/-- Modelled from the spec (§4.3 startup recovery): the Queue Manager lists
all non-DELIVERED batches from the Durable Store and re-enqueues them at
their current state; any found PROCESSING — indicating a crash mid-delivery
— is treated as FAILED(transient) with `attempt_count` unchanged (it
reverts to CLOSED with a fresh `next_attempt_at`).  OPEN batches get a
fresh inactivity deadline. -/
def QMState.recover (s : QMState) (cfg : QCfg) (now : Nat) : QMState :=
  { s with now := now
           batches := s.batches.map (fun b =>
             if b.bstate = BState.PROCESSING then
               { b with bstate := BState.CLOSED
                        next_attempt_at := now + cfg.backoff b.attempt_count }
             else b)
           deadlines :=
             (s.batches.filter (fun b => decide (b.bstate = BState.OPEN))).map
               (fun b => (b.conversation_id, now + cfg.idle_window))
           inFlight := [] }

/-- Modelled from the spec (§4.1): `ListPending()` — every Batch whose
state is not DELIVERED. -/
def QMState.ListPending (s : QMState) : List Batch :=
  s.batches.filter (fun b => decide (b.bstate ≠ BState.DELIVERED))

/-- Modelled from the spec (§4.2–§4.5): one step of the whole system.  Each
constructor carries the preconditions the spec imposes on the transition:
a batch is dispatched only when CLOSED and due, delivery and failure steps
only happen for the worker currently holding a PROCESSING batch, and time
never flows backwards.  `crashRecover` models a crash at an arbitrary
moment followed by startup recovery. -/
inductive QStep (cfg : QCfg) : QMState → QMState → Prop
  | add (s : QMState) (now : Nat) (conv : String) (msg : Message)
      (hnow : s.now ≤ now) :
      QStep cfg s (s.Add cfg now conv msg).1
  | tick (s : QMState) (now : Nat) (hnow : s.now ≤ now) :
      QStep cfg s (s.TickExpired now).1
  | dispatch (s : QMState) (now w bid : Nat) (b : Batch)
      (hnow : s.now ≤ now) (hb : getBatch s bid = some b)
      (hcl : b.bstate = BState.CLOSED) (hdue : b.next_attempt_at ≤ now) :
      QStep cfg s (s.dispatch now w bid)
  | deliverCall (s : QMState) (w bid : Nat) (b : Batch) (items : List String)
      (hin : (w, bid) ∈ s.inFlight) (hb : getBatch s bid = some b)
      (hp : b.bstate = BState.PROCESSING) :
      QStep cfg s (s.deliverCall bid items)
  | persistDelivered (s : QMState) (now w bid : Nat) (b : Batch)
      (hnow : s.now ≤ now) (hin : (w, bid) ∈ s.inFlight)
      (hb : getBatch s bid = some b) (hp : b.bstate = BState.PROCESSING) :
      QStep cfg s (s.persistDelivered now bid)
  | failTransient (s : QMState) (now w bid : Nat) (b : Batch)
      (hnow : s.now ≤ now) (hin : (w, bid) ∈ s.inFlight)
      (hb : getBatch s bid = some b) (hp : b.bstate = BState.PROCESSING) :
      QStep cfg s (s.failTransient cfg now bid)
  | failPermanent (s : QMState) (now w bid : Nat) (b : Batch)
      (hnow : s.now ≤ now) (hin : (w, bid) ∈ s.inFlight)
      (hb : getBatch s bid = some b) (hp : b.bstate = BState.PROCESSING) :
      QStep cfg s (s.failPermanent now bid)
  | crashRecover (s : QMState) (now : Nat) (hnow : s.now ≤ now) :
      QStep cfg s (s.crash.recover cfg now)

/-- States reachable from the empty initial state. -/
inductive QReachable (cfg : QCfg) : QMState → Prop
  | init : QReachable cfg initQM
  | step (s s' : QMState) : QReachable cfg s → QStep cfg s s' →
      QReachable cfg s'

/-! ### Helper lemmas about the store operations -/

theorem mem_updateBatch_iff {l : List Batch} {id : Nat} {f : Batch → Batch}
    {b' : Batch} :
    b' ∈ updateBatch l id f ↔
      ∃ b ∈ l, b' = if b.batch_id = id then f b else b := by
  simp only [updateBatch, List.mem_map]
  constructor
  · rintro ⟨b, hb, rfl⟩; exact ⟨b, hb, rfl⟩
  · rintro ⟨b, hb, rfl⟩; exact ⟨b, hb, rfl⟩

theorem mem_updateBatch_of_ne {l : List Batch} {id : Nat} {f : Batch → Batch}
    {b : Batch} (hb : b ∈ l) (hne : b.batch_id ≠ id) :
    b ∈ updateBatch l id f := by
  refine mem_updateBatch_iff.2 ⟨b, hb, ?_⟩
  simp [hne]

theorem mem_updateBatch_self {l : List Batch} {id : Nat} {f : Batch → Batch}
    {b : Batch} (hb : b ∈ l) (heq : b.batch_id = id) :
    f b ∈ updateBatch l id f := by
  refine mem_updateBatch_iff.2 ⟨b, hb, ?_⟩
  simp [heq]

theorem updateBatch_map_batch_id {l : List Batch} {id : Nat}
    {f : Batch → Batch} (hf : ∀ b ∈ l, b.batch_id = id → (f b).batch_id = id) :
    (updateBatch l id f).map Batch.batch_id = l.map Batch.batch_id := by
  unfold updateBatch
  rw [List.map_map]
  induction l with
  | nil => rfl
  | cons x xs ih =>
    simp only [List.map_cons, Function.comp_apply]
    have hx : (if x.batch_id = id then f x else x).batch_id = x.batch_id := by
      by_cases hxi : x.batch_id = id
      · simp [hxi, hf x (by simp) hxi]
      · simp [hxi]
    rw [hx, ih (fun b hb hbi => hf b (by simp [hb]) hbi)]

theorem getBatch_mem {s : QMState} {bid : Nat} {b : Batch}
    (h : getBatch s bid = some b) : b ∈ s.batches ∧ b.batch_id = bid := by
  refine ⟨List.mem_of_find?_eq_some h, ?_⟩
  have := List.find?_some h
  exact of_decide_eq_true this

theorem findOpenBatch_mem {l : List Batch} {conv : String} {b : Batch}
    (h : findOpenBatch l conv = some b) :
    b ∈ l ∧ b.conversation_id = conv ∧ b.bstate = BState.OPEN := by
  refine ⟨List.mem_of_find?_eq_some h, ?_⟩
  have := List.find?_some h
  exact of_decide_eq_true this

theorem findOpenBatch_none {l : List Batch} {conv : String}
    (h : findOpenBatch l conv = none) :
    ∀ b ∈ l, ¬(b.conversation_id = conv ∧ b.bstate = BState.OPEN) := by
  intro b hb
  rw [findOpenBatch, List.find?_eq_none] at h
  have := h b hb
  simpa [isOpenFor] using this

theorem batch_id_inj {s : QMState}
    (hnd : (s.batches.map Batch.batch_id).Nodup) {a b : Batch}
    (ha : a ∈ s.batches) (hb : b ∈ s.batches)
    (hid : a.batch_id = b.batch_id) : a = b :=
  List.inj_on_of_nodup_map hnd ha hb hid

/-! ### The core invariant (unique ids, unique in-flight batches, at most
one OPEN batch per conversation) -/

/-- Each conversation has at most one OPEN batch (by batch id). -/
def atMostOneOpen (s : QMState) : Prop :=
  ∀ b1 ∈ s.batches, ∀ b2 ∈ s.batches, b1.bstate = BState.OPEN →
    b2.bstate = BState.OPEN → b1.conversation_id = b2.conversation_id →
    b1.batch_id = b2.batch_id

/-- The system invariant: batch ids are unique and fresh, every in-flight
pair points at a PROCESSING batch record, no batch is held by two workers,
and each conversation has at most one OPEN batch. -/
def QInv (s : QMState) : Prop :=
  (s.batches.map Batch.batch_id).Nodup ∧
  (∀ b ∈ s.batches, b.batch_id < s.nextBatchId) ∧
  (∀ p ∈ s.inFlight, ∃ b ∈ s.batches,
    b.batch_id = p.2 ∧ b.bstate = BState.PROCESSING) ∧
  (s.inFlight.map Prod.snd).Nodup ∧
  atMostOneOpen s

theorem atMostOneOpen_updateBatch {s : QMState} (h : atMostOneOpen s)
    {bid : Nat} {f : Batch → Batch}
    (hno : ∀ b, (f b).bstate ≠ BState.OPEN) :
    ∀ b1 ∈ updateBatch s.batches bid f, ∀ b2 ∈ updateBatch s.batches bid f,
      b1.bstate = BState.OPEN → b2.bstate = BState.OPEN →
      b1.conversation_id = b2.conversation_id → b1.batch_id = b2.batch_id := by
  intro b1 hb1 b2 hb2 h1 h2 hc
  obtain ⟨a1, ha1, rfl⟩ := mem_updateBatch_iff.1 hb1
  obtain ⟨a2, ha2, rfl⟩ := mem_updateBatch_iff.1 hb2
  by_cases e1 : a1.batch_id = bid
  · rw [if_pos e1] at h1
    exact absurd h1 (hno a1)
  · rw [if_neg e1] at h1 hc ⊢
    by_cases e2 : a2.batch_id = bid
    · rw [if_pos e2] at h2
      exact absurd h2 (hno a2)
    · rw [if_neg e2] at h2 hc ⊢
      exact h a1 ha1 a2 ha2 h1 h2 hc

theorem inFlight_witness_updateBatch {s : QMState}
    (hw : ∀ p ∈ s.inFlight, ∃ b ∈ s.batches,
      b.batch_id = p.2 ∧ b.bstate = BState.PROCESSING)
    {bid : Nat} {f : Batch → Batch} {pf : List (Nat × Nat)}
    (hpf : ∀ p ∈ pf, p ∈ s.inFlight ∧ p.2 ≠ bid) :
    ∀ p ∈ pf, ∃ b ∈ updateBatch s.batches bid f,
      b.batch_id = p.2 ∧ b.bstate = BState.PROCESSING := by
  intro p hp
  obtain ⟨hmem, hne⟩ := hpf p hp
  obtain ⟨b, hb, hid, hstt⟩ := hw p hmem
  exact ⟨b, mem_updateBatch_of_ne hb (by rw [hid]; exact hne), hid, hstt⟩

theorem nodup_snd_filter {l : List (Nat × Nat)} (q : Nat × Nat → Bool)
    (h : (l.map Prod.snd).Nodup) : ((l.filter q).map Prod.snd).Nodup :=
  ((l.filter_sublist.map Prod.snd)).nodup h

theorem map_batch_id_map {l : List Batch} {g : Batch → Batch}
    (hg : ∀ b, (g b).batch_id = b.batch_id) :
    (l.map g).map Batch.batch_id = l.map Batch.batch_id := by
  rw [List.map_map]
  congr 1
  funext b
  exact hg b

theorem atMostOneOpen_replace_open {s : QMState} (hopen : atMostOneOpen s)
    {b nb : Batch} (hbmem : b ∈ s.batches) (hbopen : b.bstate = BState.OPEN)
    (hid : nb.batch_id = b.batch_id)
    (hconv : nb.conversation_id = b.conversation_id) :
    ∀ b1 ∈ updateBatch s.batches b.batch_id (fun _ => nb),
      ∀ b2 ∈ updateBatch s.batches b.batch_id (fun _ => nb),
      b1.bstate = BState.OPEN → b2.bstate = BState.OPEN →
      b1.conversation_id = b2.conversation_id → b1.batch_id = b2.batch_id := by
  intro b1 hb1 b2 hb2 h1 h2 hc
  obtain ⟨a1, ha1, rfl⟩ := mem_updateBatch_iff.1 hb1
  obtain ⟨a2, ha2, rfl⟩ := mem_updateBatch_iff.1 hb2
  by_cases e1 : a1.batch_id = b.batch_id
  · rw [if_pos e1] at h1 hc ⊢
    by_cases e2 : a2.batch_id = b.batch_id
    · rw [if_pos e2]
    · rw [if_neg e2] at h2 hc ⊢
      have h2conv : b.conversation_id = a2.conversation_id := by
        rw [← hconv]; exact hc
      exact absurd (hopen b hbmem a2 ha2 hbopen h2 h2conv).symm e2
  · rw [if_neg e1] at h1 hc ⊢
    by_cases e2 : a2.batch_id = b.batch_id
    · rw [if_pos e2] at h2 hc ⊢
      have h1conv : a1.conversation_id = b.conversation_id := by
        rw [hc, hconv]
      exact absurd (hopen a1 ha1 b hbmem h1 hbopen h1conv) e1
    · rw [if_neg e2] at h2 hc ⊢
      exact hopen a1 ha1 a2 ha2 h1 h2 hc

/-- Every step of the system preserves the core invariant. -/
theorem QInv_step {cfg : QCfg} {s s' : QMState} (hinv : QInv s)
    (hst : QStep cfg s s') : QInv s' := by
  obtain ⟨hnd, hfresh, hifl, hiflnd, hopen⟩ := hinv
  cases hst
  case add nowv conv msg hnow =>
    cases hfo : findOpenBatch s.batches conv with
    | some b =>
      obtain ⟨hbmem, hbconv, hbopen⟩ := findOpenBatch_mem hfo
      simp only [QMState.Add, hfo]
      refine ⟨?_, ?_, ?_, hiflnd, ?_⟩
      · rw [updateBatch_map_batch_id]
        · exact hnd
        · intro b0 _ hb0; simpa using hb0
      · intro b' hb'
        obtain ⟨a, ha, rfl⟩ := mem_updateBatch_iff.1 hb'
        by_cases e : a.batch_id = b.batch_id
        · rw [if_pos e]
          simpa using hfresh b hbmem
        · rw [if_neg e]
          exact hfresh a ha
      · intro p hp
        obtain ⟨b'', hb'', hid, hstt⟩ := hifl p hp
        have hne : b''.batch_id ≠ b.batch_id := by
          intro hcontra
          have hbb := batch_id_inj hnd hb'' hbmem hcontra
          rw [hbb, hbopen] at hstt
          exact absurd hstt (by simp)
        exact ⟨b'', mem_updateBatch_of_ne hb'' hne, hid, hstt⟩
      · exact atMostOneOpen_replace_open hopen hbmem hbopen (by simp) (by simp)
    | none =>
      simp only [QMState.Add, hfo]
      refine ⟨?_, ?_, ?_, hiflnd, ?_⟩
      · rw [List.map_append]
        refine List.Nodup.append hnd (by simp) ?_
        intro a hmem hsing
        simp only [List.map_cons, List.map_nil, List.mem_singleton] at hsing
        obtain ⟨b0, hb0, hbid⟩ := List.mem_map.1 hmem
        have := hfresh b0 hb0
        subst hsing
        rw [hbid] at this
        exact lt_irrefl _ this
      · intro b' hb'
        rcases List.mem_append.1 hb' with hold | hnew
        · exact Nat.lt_succ_of_lt (hfresh b' hold)
        · simp only [List.mem_singleton] at hnew
          subst hnew
          exact Nat.lt_succ_self _
      · intro p hp
        obtain ⟨b'', hb'', hid, hstt⟩ := hifl p hp
        exact ⟨b'', List.mem_append.2 (Or.inl hb''), hid, hstt⟩
      · intro b1 hb1 b2 hb2 h1 h2 hc
        rcases List.mem_append.1 hb1 with ho1 | hn1 <;>
          rcases List.mem_append.1 hb2 with ho2 | hn2
        · exact hopen b1 ho1 b2 ho2 h1 h2 hc
        · simp only [List.mem_singleton] at hn2
          subst hn2
          exfalso
          refine findOpenBatch_none hfo b1 ho1 ⟨?_, h1⟩
          simpa using hc
        · simp only [List.mem_singleton] at hn1
          subst hn1
          exfalso
          refine findOpenBatch_none hfo b2 ho2 ⟨?_, h2⟩
          simpa using hc.symm
        · simp only [List.mem_singleton] at hn1 hn2
          rw [hn1, hn2]
  case tick nowv hnow =>
    simp only [QMState.TickExpired]
    refine ⟨?_, ?_, ?_, hiflnd, ?_⟩
    · rw [map_batch_id_map]
      · exact hnd
      · intro b
        by_cases hcond : b.bstate = BState.OPEN ∧
            b.conversation_id ∈ expiredConvs s.deadlines nowv
        · simp [hcond]
        · simp [hcond]
    · intro b' hb'
      obtain ⟨a, ha, rfl⟩ := List.mem_map.1 hb'
      by_cases hcond : a.bstate = BState.OPEN ∧
          a.conversation_id ∈ expiredConvs s.deadlines nowv
      · simp only [if_pos hcond]
        exact hfresh a ha
      · simp only [if_neg hcond]
        exact hfresh a ha
    · intro p hp
      obtain ⟨b'', hb'', hid, hstt⟩ := hifl p hp
      refine ⟨b'', ?_, hid, hstt⟩
      have hgb : (if b''.bstate = BState.OPEN ∧
          b''.conversation_id ∈ expiredConvs s.deadlines nowv then
          { b'' with bstate := BState.CLOSED } else b'') = b'' := by
        rw [if_neg]
        rintro ⟨ho, -⟩
        rw [hstt] at ho
        exact absurd ho (by simp)
      rw [← hgb]
      exact List.mem_map_of_mem _ hb''
    · intro b1 hb1 b2 hb2 h1 h2 hc
      obtain ⟨a1, ha1, rfl⟩ := List.mem_map.1 hb1
      obtain ⟨a2, ha2, rfl⟩ := List.mem_map.1 hb2
      by_cases c1 : a1.bstate = BState.OPEN ∧
          a1.conversation_id ∈ expiredConvs s.deadlines nowv
      · rw [if_pos c1] at h1
        exact absurd h1 (by simp)
      · rw [if_neg c1] at h1 hc ⊢
        by_cases c2 : a2.bstate = BState.OPEN ∧
            a2.conversation_id ∈ expiredConvs s.deadlines nowv
        · rw [if_pos c2] at h2
          exact absurd h2 (by simp)
        · rw [if_neg c2] at h2 hc ⊢
          exact hopen a1 ha1 a2 ha2 h1 h2 hc
  case dispatch nowv w bid b hnow hb hcl hdue =>
    obtain ⟨hbmem, hbid⟩ := getBatch_mem hb
    simp only [QMState.dispatch]
    refine ⟨?_, ?_, ?_, ?_, ?_⟩
    · rw [updateBatch_map_batch_id]
      · exact hnd
      · intro b0 _ hb0; simpa using hb0
    · intro b' hb'
      obtain ⟨a, ha, rfl⟩ := mem_updateBatch_iff.1 hb'
      by_cases e : a.batch_id = bid
      · rw [if_pos e]
        simpa using hfresh a ha
      · rw [if_neg e]
        exact hfresh a ha
    · intro p hp
      rcases List.mem_cons.1 hp with hpnew | hpold
      · subst hpnew
        refine ⟨_, mem_updateBatch_self hbmem hbid, by simpa using hbid, by simp⟩
      · obtain ⟨b'', hb'', hid, hstt⟩ := hifl p hpold
        have hne : b''.batch_id ≠ bid := by
          intro hcontra
          have hbb := batch_id_inj hnd hb'' hbmem (hcontra.trans hbid.symm)
          rw [hbb, hcl] at hstt
          exact absurd hstt (by simp)
        exact ⟨b'', mem_updateBatch_of_ne hb'' hne, hid, hstt⟩
    · simp only [List.map_cons]
      refine List.Nodup.cons ?_ hiflnd
      intro hmem
      obtain ⟨p, hp, hpsnd⟩ := List.mem_map.1 hmem
      obtain ⟨b'', hb'', hid, hstt⟩ := hifl p hp
      have hbb := batch_id_inj hnd hb'' hbmem (by rw [hid, hpsnd, hbid])
      rw [hbb, hcl] at hstt
      exact absurd hstt (by simp)
    · exact atMostOneOpen_updateBatch hopen (by intro x; simp)
  case deliverCall w bid b items hin hb hp =>
    exact ⟨hnd, hfresh, hifl, hiflnd, hopen⟩
  case persistDelivered nowv w bid b hnow hin hb hp =>
    simp only [QMState.persistDelivered]
    refine ⟨?_, ?_, ?_, ?_, ?_⟩
    · rw [updateBatch_map_batch_id]
      · exact hnd
      · intro b0 _ hb0; simpa using hb0
    · intro b' hb'
      obtain ⟨a, ha, rfl⟩ := mem_updateBatch_iff.1 hb'
      by_cases e : a.batch_id = bid
      · rw [if_pos e]
        simpa using hfresh a ha
      · rw [if_neg e]
        exact hfresh a ha
    · refine inFlight_witness_updateBatch hifl ?_
      intro p hp2
      have := List.mem_filter.1 hp2
      exact ⟨this.1, of_decide_eq_true this.2⟩
    · exact nodup_snd_filter _ hiflnd
    · exact atMostOneOpen_updateBatch hopen (by intro x; simp)
  case failTransient nowv w bid b hnow hin hb hp =>
    simp only [QMState.failTransient]
    refine ⟨?_, ?_, ?_, ?_, ?_⟩
    · rw [updateBatch_map_batch_id]
      · exact hnd
      · intro b0 _ hb0
        by_cases hc : cfg.max_attempts < b0.attempt_count
        · simpa [hc] using hb0
        · simpa [hc] using hb0
    · intro b' hb'
      obtain ⟨a, ha, rfl⟩ := mem_updateBatch_iff.1 hb'
      by_cases e : a.batch_id = bid
      · rw [if_pos e]
        by_cases hc : cfg.max_attempts < a.attempt_count
        · simpa [hc] using hfresh a ha
        · simpa [hc] using hfresh a ha
      · rw [if_neg e]
        exact hfresh a ha
    · refine inFlight_witness_updateBatch hifl ?_
      intro p hp2
      have := List.mem_filter.1 hp2
      exact ⟨this.1, of_decide_eq_true this.2⟩
    · exact nodup_snd_filter _ hiflnd
    · refine atMostOneOpen_updateBatch hopen ?_
      intro x
      by_cases hc : cfg.max_attempts < x.attempt_count
      · simp [hc]
      · simp [hc]
  case failPermanent nowv w bid b hnow hin hb hp =>
    simp only [QMState.failPermanent]
    refine ⟨?_, ?_, ?_, ?_, ?_⟩
    · rw [updateBatch_map_batch_id]
      · exact hnd
      · intro b0 _ hb0; simpa using hb0
    · intro b' hb'
      obtain ⟨a, ha, rfl⟩ := mem_updateBatch_iff.1 hb'
      by_cases e : a.batch_id = bid
      · rw [if_pos e]
        simpa using hfresh a ha
      · rw [if_neg e]
        exact hfresh a ha
    · refine inFlight_witness_updateBatch hifl ?_
      intro p hp2
      have := List.mem_filter.1 hp2
      exact ⟨this.1, of_decide_eq_true this.2⟩
    · exact nodup_snd_filter _ hiflnd
    · exact atMostOneOpen_updateBatch hopen (by intro x; simp)
  case crashRecover nowv hnow =>
    simp only [QMState.recover, QMState.crash]
    refine ⟨?_, ?_, ?_, ?_, ?_⟩
    · rw [map_batch_id_map]
      · exact hnd
      · intro b0
        by_cases hc : b0.bstate = BState.PROCESSING
        · simp [hc]
        · simp [hc]
    · intro b' hb'
      obtain ⟨a, ha, rfl⟩ := List.mem_map.1 hb'
      by_cases hc : a.bstate = BState.PROCESSING
      · simp only [if_pos hc]
        exact hfresh a ha
      · simp only [if_neg hc]
        exact hfresh a ha
    · intro p hp
      simp only [QMState.recover, QMState.crash] at hp
      exact absurd hp (by simp)
    · simp [QMState.recover, QMState.crash]
    · intro b1 hb1 b2 hb2 h1 h2 hc
      obtain ⟨a1, ha1, rfl⟩ := List.mem_map.1 hb1
      obtain ⟨a2, ha2, rfl⟩ := List.mem_map.1 hb2
      by_cases c1 : a1.bstate = BState.PROCESSING
      · rw [if_pos c1] at h1
        exact absurd h1 (by simp)
      · rw [if_neg c1] at h1 hc ⊢
        by_cases c2 : a2.bstate = BState.PROCESSING
        · rw [if_pos c2] at h2
          exact absurd h2 (by simp)
        · rw [if_neg c2] at h2 hc ⊢
          exact hopen a1 ha1 a2 ha2 h1 h2 hc

/-- The core invariant holds in every reachable state. -/
theorem QInv_reachable {cfg : QCfg} {s : QMState} (h : QReachable cfg s) :
    QInv s := by
  induction h with
  | init =>
    refine ⟨by simp [initQM], by simp [initQM], by simp [initQM],
      by simp [initQM], ?_⟩
    intro b1 hb1
    simp [initQM] at hb1
  | step s s' _ hstep ih => exact QInv_step ih hstep

/-! ### Lookup after update, sink idempotency, dead-letter freezing -/

theorem find?_id_updateBatch {l : List Batch} {id : Nat} {f : Batch → Batch}
    (hf : ∀ b, b.batch_id = id → (f b).batch_id = id) :
    (updateBatch l id f).find? (fun b => decide (b.batch_id = id)) =
      (l.find? (fun b => decide (b.batch_id = id))).map f := by
  induction l with
  | nil => rfl
  | cons x xs ih =>
    by_cases hx : x.batch_id = id
    · simp only [updateBatch, List.map_cons, List.find?_cons, if_pos hx,
        decide_eq_true hx, decide_eq_true (hf x hx)]
      rfl
    · simp only [updateBatch, List.map_cons, List.find?_cons, if_neg hx,
        decide_eq_false hx]
      exact ih

theorem getBatch_dispatch {s : QMState} {now w bid : Nat} :
    getBatch (s.dispatch now w bid) bid =
      (getBatch s bid).map (fun b =>
        { b with bstate := BState.PROCESSING
                 attempt_count := b.attempt_count + 1 }) := by
  simp only [getBatch, QMState.dispatch]
  exact find?_id_updateBatch (fun b hb => hb)

theorem getBatch_failTransient {s : QMState} {cfg : QCfg} {now bid : Nat} :
    getBatch (s.failTransient cfg now bid) bid =
      (getBatch s bid).map (fun b =>
        if cfg.max_attempts < b.attempt_count then
          { b with bstate := BState.FAILED }
        else
          { b with bstate := BState.CLOSED
                   next_attempt_at := now + cfg.backoff b.attempt_count }) := by
  simp only [getBatch, QMState.failTransient]
  refine find?_id_updateBatch ?_
  intro b hb
  by_cases hc : cfg.max_attempts < b.attempt_count
  · simpa [hc] using hb
  · simpa [hc] using hb

theorem backoff_pos {cfg : QCfg} (hbase : 1 ≤ cfg.backoff_base)
    (hcap : 1 ≤ cfg.backoff_cap) (n : Nat) : 1 ≤ cfg.backoff n := by
  refine le_min ?_ hcap
  calc 1 = 1 * 1 := by norm_num
  _ ≤ cfg.backoff_base * 2 ^ (n - 1) :=
      Nat.mul_le_mul hbase (Nat.one_le_two_pow)

theorem sinkAppend_of_delivered {sink : List (Nat × List String)} {bid : Nat}
    (items : List String) (h : 1 ≤ sinkCount sink bid) :
    sinkAppend sink bid items = sink := by
  unfold sinkAppend
  rw [if_pos]
  unfold sinkCount at h
  have hne : sink.filter (fun p => decide (p.1 = bid)) ≠ [] := by
    intro hnil
    rw [hnil] at h
    exact absurd h (by simp)
  obtain ⟨p, hp⟩ := List.exists_mem_of_ne_nil _ hne
  have := List.mem_filter.1 hp
  unfold sinkHas
  rw [List.any_eq_true]
  exact ⟨p, this.1, this.2⟩

/-! ### Accumulator runs (for the batching claims) -/

/-- Modelled from the spec (§4.2, §5): a run of the accumulator on a
sequence of timestamped arrivals — at each arrival time the poll
(`TickExpired`) fires first, then `Add` for the message's conversation. -/
def runConv (cfg : QCfg) : QMState → List (Nat × Message) → QMState
  | s, [] => s
  | s, (t, m) :: rest =>
      runConv cfg ((s.TickExpired t).1.Add cfg t m.conversation_id m).1 rest

/-- Arrival times move forward from `tl` and every consecutive gap stays
strictly within the idle window. -/
def chainOK (cfg : QCfg) : Nat → List (Nat × Message) → Prop
  | _, [] => True
  | tl, (t, _) :: rest => tl ≤ t ∧ t < tl + cfg.idle_window ∧ chainOK cfg t rest

/-- Inter-arrival gaps of the whole sequence stay within the idle window. -/
def gapsOK (cfg : QCfg) : List (Nat × Message) → Prop
  | [] => True
  | (t, _) :: rest => chainOK cfg t rest

theorem tick_fields {s : QMState} {b : Batch} {c : String} {d t : Nat}
    (hb : s.batches = [b]) (hdl : s.deadlines = [(c, d)]) (hlt : t < d) :
    (s.TickExpired t).1.batches = [b] ∧
    (s.TickExpired t).1.deadlines = [(c, d)] ∧
    (s.TickExpired t).1.now = t := by
  have hnotle : ¬ (d ≤ t) := by omega
  refine ⟨?_, ?_, rfl⟩
  · simp [QMState.TickExpired, hb, hdl, expiredConvs, hnotle]
  · simp [QMState.TickExpired, hdl, hlt]

theorem Add_fields {s : QMState} {b : Batch} {c : String} {cfg : QCfg}
    {t : Nat} {m : Message} (hb : s.batches = [b])
    (hconv : b.conversation_id = c) (hopen : b.bstate = BState.OPEN) :
    (s.Add cfg t c m).1.batches =
      [{ b with message_ids := b.message_ids ++ [m.id]
                bstate :=
                  if decide (cfg.max_batch_size ≤ b.message_ids.length + 1)
                  then BState.CLOSED else BState.OPEN }] ∧
    (s.Add cfg t c m).1.deadlines =
      (if decide (cfg.max_batch_size ≤ b.message_ids.length + 1)
       then dropDeadline s.deadlines c
       else setDeadline s.deadlines c (t + cfg.idle_window)) ∧
    (s.Add cfg t c m).2.2 =
      decide (cfg.max_batch_size ≤ b.message_ids.length + 1) := by
  have hfo : findOpenBatch s.batches c = some b := by
    simp [findOpenBatch, hb, isOpenFor, List.find?, hconv, hopen]
  refine ⟨?_, ?_, ?_⟩
  · simp only [QMState.Add, hfo]
    simp [updateBatch, hb]
  · simp only [QMState.Add, hfo]
    simp
  · simp only [QMState.Add, hfo]
    simp

/-- Running further arrivals for conversation `c` on a state holding
exactly one OPEN batch for `c` keeps exactly one batch and appends the
arriving message ids in order, as long as the total stays within
`max_batch_size` and all gaps stay within the idle window. -/
theorem runConv_extends (cfg : QCfg) (c : String) :
    ∀ (rest : List (Nat × Message)) (s : QMState) (b : Batch) (tl : Nat),
      s.batches = [b] → b.bstate = BState.OPEN → b.conversation_id = c →
      s.deadlines = [(c, tl + cfg.idle_window)] →
      (∀ p ∈ rest, p.2.conversation_id = c) →
      b.message_ids.length + rest.length ≤ cfg.max_batch_size →
      chainOK cfg tl rest →
      ∃ b', (runConv cfg s rest).batches = [b'] ∧
        b'.message_ids = b.message_ids ++ rest.map (fun p => p.2.id) ∧
        b'.conversation_id = c := by
  intro rest
  induction rest with
  | nil =>
    intro s b tl hb hopen hconv hdl hcs hlen hchain
    exact ⟨b, by simpa [runConv] using hb, by simp, hconv⟩
  | cons hd tlrest ih =>
    obtain ⟨t, m⟩ := hd
    intro s b tl hb hopen hconv hdl hcs hlen hchain
    obtain ⟨htl, hlt, hchain'⟩ := hchain
    have hmconv : m.conversation_id = c := hcs (t, m) (by simp)
    obtain ⟨htb, htd, htn⟩ := tick_fields hb hdl hlt
    obtain ⟨hab, had, haf⟩ :=
      @Add_fields _ _ _ cfg t m htb hconv hopen
    have hrun : runConv cfg s ((t, m) :: tlrest) =
        runConv cfg ((s.TickExpired t).1.Add cfg t c m).1 tlrest := by
      simp only [runConv, hmconv]
    rw [hrun]
    by_cases hfl : cfg.max_batch_size ≤ b.message_ids.length + 1
    · -- the batch flushes on this Add, so this must be the last arrival
      have hrest : tlrest = [] := by
        have := hlen
        simp only [List.length_cons] at this
        have : tlrest.length = 0 := by omega
        exact List.length_eq_zero.1 this
      subst hrest
      refine ⟨{ b with message_ids := b.message_ids ++ [m.id]
                       bstate :=
                         if decide (cfg.max_batch_size ≤
                             b.message_ids.length + 1)
                         then BState.CLOSED else BState.OPEN },
        ?_, ?_, ?_⟩
      · simpa [runConv] using hab
      · simp
      · simp [hconv]
    · -- still below the cap: the batch stays OPEN, recurse
      rw [htd] at had
      refine ih ((s.TickExpired t).1.Add cfg t c m).1
        { b with message_ids := b.message_ids ++ [m.id]
                 bstate :=
                   if decide (cfg.max_batch_size ≤ b.message_ids.length + 1)
                   then BState.CLOSED else BState.OPEN }
        t (by simpa using hab) (by simp [hfl]) (by simp [hconv])
        ?_ (fun p hp => hcs p (by simp [hp])) ?_ hchain' |>.imp ?_
      · rw [had, if_neg (by simpa using hfl)]
        simp [setDeadline]
      · simp only [List.length_append, List.length_cons, List.length_nil]
          at hlen ⊢
        omega
      · intro b' hb'
        obtain ⟨h1, h2, h3⟩ := hb'
        refine ⟨h1, ?_, h3⟩
        rw [h2]
        simp

/-- Once a batch record is FAILED (dead-lettered), no step of the system —
including crash/recovery — changes it: the record survives verbatim. -/
theorem failed_is_frozen {cfg : QCfg} {s s' : QMState} (hinv : QInv s)
    (hst : QStep cfg s s') {b : Batch} (hb : b ∈ s.batches)
    (hf : b.bstate = BState.FAILED) : b ∈ s'.batches := by
  obtain ⟨hnd, hfresh, hifl, hiflnd, hopen⟩ := hinv
  cases hst
  case add nowv conv msg hnow =>
    cases hfo : findOpenBatch s.batches conv with
    | some b0 =>
      obtain ⟨hb0mem, hb0conv, hb0open⟩ := findOpenBatch_mem hfo
      simp only [QMState.Add, hfo]
      refine mem_updateBatch_of_ne hb ?_
      intro hcontra
      have heq := batch_id_inj hnd hb hb0mem hcontra
      rw [heq, hb0open] at hf
      exact absurd hf (by simp)
    | none =>
      simp only [QMState.Add, hfo]
      exact List.mem_append.2 (Or.inl hb)
  case tick nowv hnow =>
    simp only [QMState.TickExpired]
    have hgb : (if b.bstate = BState.OPEN ∧
        b.conversation_id ∈ expiredConvs s.deadlines nowv then
        { b with bstate := BState.CLOSED } else b) = b := by
      rw [if_neg]
      rintro ⟨ho, -⟩
      rw [hf] at ho
      exact absurd ho (by simp)
    rw [← hgb]
    exact List.mem_map_of_mem _ hb
  case dispatch nowv w bid b0 hnow hb0 hcl hdue =>
    obtain ⟨hb0mem, hb0id⟩ := getBatch_mem hb0
    simp only [QMState.dispatch]
    refine mem_updateBatch_of_ne hb ?_
    intro hcontra
    have heq := batch_id_inj hnd hb hb0mem (hcontra.trans hb0id.symm)
    rw [heq, hcl] at hf
    exact absurd hf (by simp)
  case deliverCall w bid b0 items hin hb0 hp =>
    exact hb
  case persistDelivered nowv w bid b0 hnow hin hb0 hp =>
    obtain ⟨hb0mem, hb0id⟩ := getBatch_mem hb0
    simp only [QMState.persistDelivered]
    refine mem_updateBatch_of_ne hb ?_
    intro hcontra
    have heq := batch_id_inj hnd hb hb0mem (hcontra.trans hb0id.symm)
    rw [heq, hp] at hf
    exact absurd hf (by simp)
  case failTransient nowv w bid b0 hnow hin hb0 hp =>
    obtain ⟨hb0mem, hb0id⟩ := getBatch_mem hb0
    simp only [QMState.failTransient]
    refine mem_updateBatch_of_ne hb ?_
    intro hcontra
    have heq := batch_id_inj hnd hb hb0mem (hcontra.trans hb0id.symm)
    rw [heq, hp] at hf
    exact absurd hf (by simp)
  case failPermanent nowv w bid b0 hnow hin hb0 hp =>
    obtain ⟨hb0mem, hb0id⟩ := getBatch_mem hb0
    simp only [QMState.failPermanent]
    refine mem_updateBatch_of_ne hb ?_
    intro hcontra
    have heq := batch_id_inj hnd hb hb0mem (hcontra.trans hb0id.symm)
    rw [heq, hp] at hf
    exact absurd hf (by simp)
  case crashRecover nowv hnow =>
    simp only [QMState.recover, QMState.crash]
    have hgb : (if b.bstate = BState.PROCESSING then
        { b with bstate := BState.CLOSED
                 next_attempt_at := nowv + cfg.backoff b.attempt_count }
        else b) = b := by
      rw [if_neg]
      intro ho
      rw [hf] at ho
      exact absurd ho (by simp)
    rw [← hgb]
    exact List.mem_map_of_mem _ hb

/-- A transient failure when the attempt budget is not yet exhausted
re-schedules the batch: CLOSED again, with a strictly later
`next_attempt_at` computed by the backoff formula. -/
theorem failTransient_reschedules {cfg : QCfg} {s : QMState}
    {bid w now1 now2 : Nat} {b : Batch}
    (hbase : 1 ≤ cfg.backoff_base) (hcap : 1 ≤ cfg.backoff_cap)
    (hb : getBatch s bid = some b) (hcl : b.bstate = BState.CLOSED)
    (hac : b.attempt_count + 1 ≤ cfg.max_attempts)
    (hdue : b.next_attempt_at ≤ now1) (h12 : now1 ≤ now2) :
    ∃ b', getBatch ((s.dispatch now1 w bid).failTransient cfg now2 bid) bid
        = some b' ∧
      b'.bstate = BState.CLOSED ∧
      b'.attempt_count = b.attempt_count + 1 ∧
      b'.next_attempt_at = now2 + cfg.backoff (b.attempt_count + 1) ∧
      b.next_attempt_at < b'.next_attempt_at := by
  have hnotex : ¬ cfg.max_attempts < b.attempt_count + 1 := by omega
  refine ⟨{ b with bstate := BState.CLOSED
                   attempt_count := b.attempt_count + 1
                   next_attempt_at := now2 + cfg.backoff (b.attempt_count + 1) },
    ?_, rfl, rfl, rfl, ?_⟩
  · rw [getBatch_failTransient, getBatch_dispatch, hb]
    simp [hnotex]
  · show b.next_attempt_at < now2 + cfg.backoff (b.attempt_count + 1)
    have h1 := backoff_pos hbase hcap (b.attempt_count + 1)
    omega

/-! ### Concrete traces (for witnesses and the counterexample) -/

/-- A fixed message used to build concrete traces. -/
def cexMsg : Message :=
  { id := "m", conversation_id := "c", text := "t", received_at := 0 }

/-- `n` consecutive `Add` calls at time 0 for conversation `"c"`. -/
def addN (cfg : QCfg) : Nat → QMState → QMState
  | 0, s => s
  | n + 1, s => addN cfg n (s.Add cfg 0 "c" cexMsg).1

theorem Add_now {s : QMState} {cfg : QCfg} {now : Nat} {conv : String}
    {msg : Message} : ((s.Add cfg now conv msg).1).now = now := by
  cases hfo : findOpenBatch s.batches conv <;> simp [QMState.Add, hfo]

theorem addN_reachable (cfg : QCfg) :
    ∀ (n : Nat) (s : QMState), QReachable cfg s → s.now = 0 →
      QReachable cfg (addN cfg n s) ∧ (addN cfg n s).now = 0 := by
  intro n
  induction n with
  | zero => intro s h hn; exact ⟨h, hn⟩
  | succ k ih =>
    intro s h hn
    exact ih (s.Add cfg 0 "c" cexMsg).1
      (QReachable.step _ _ h (QStep.add s 0 "c" cexMsg (le_of_eq hn)))
      Add_now

/-! ### Lookup through recovery and delivery persistence -/

theorem find?_id_mapBatches {l : List Batch} {bid : Nat} {g : Batch → Batch}
    (hg : ∀ b, (g b).batch_id = b.batch_id) :
    (l.map g).find? (fun b => decide (b.batch_id = bid)) =
      (l.find? (fun b => decide (b.batch_id = bid))).map g := by
  induction l with
  | nil => rfl
  | cons x xs ih =>
    by_cases hx : x.batch_id = bid
    · simp only [List.map_cons, List.find?_cons, decide_eq_true hx,
        decide_eq_true ((hg x).trans hx)]
      rfl
    · have hgx : ¬ (g x).batch_id = bid := by rw [hg x]; exact hx
      simp only [List.map_cons, List.find?_cons, decide_eq_false hx,
        decide_eq_false hgx]
      exact ih

theorem getBatch_recover {s : QMState} {cfg : QCfg} {now bid : Nat} :
    getBatch (s.recover cfg now) bid =
      (getBatch s bid).map (fun b =>
        if b.bstate = BState.PROCESSING then
          { b with bstate := BState.CLOSED
                   next_attempt_at := now + cfg.backoff b.attempt_count }
        else b) := by
  simp only [getBatch, QMState.recover]
  refine find?_id_mapBatches ?_
  intro b
  by_cases hc : b.bstate = BState.PROCESSING
  · simp [hc]
  · simp [hc]

theorem getBatch_persistDelivered {s : QMState} {now bid : Nat} :
    getBatch (s.persistDelivered now bid) bid =
      (getBatch s bid).map (fun b => { b with bstate := BState.DELIVERED }) := by
  simp only [getBatch, QMState.persistDelivered]
  exact find?_id_updateBatch (fun b hb => hb)

/-- Modelled from the spec (§8 crash test): a crash while a batch is
PROCESSING, then restart recovery, then a full re-processing of that batch
by worker `w` — dispatch, delivery collaborator call, and persistence of
the DELIVERED state. -/
def reprocess (cfg : QCfg) (s : QMState) (bid w now1 now2 now3 : Nat)
    (items : List String) : QMState :=
  ((((s.crash).recover cfg now1).dispatch now2 w bid).deliverCall bid
    items).persistDelivered now3 bid

/-! ### Embedding of `cmd/bot/main.go` -/

/-- Configuration record returned by `config.Load`, with the fields `main`
consumes (`cmd/bot/main.go` lines 34-59). -/
structure BotConfig where
  openRouterAPIKey : String
  googleScriptURL : String
  databasePath : String
  telegramToken : String
deriving Repr, DecidableEq

/-- Outcome of `handler.Start(ctx)` in `main` (line 108): either it returns
`context.Canceled` after the shutdown signal cancels the context, or some
other error (which `main` treats as fatal). -/
inductive StartOutcome
  | canceled
  | failed (e : String)
deriving Repr, DecidableEq

/-- The environment `main` runs against: the results of each fallible
collaborator call made in `cmd/bot/main.go`. -/
structure MainEnv where
  configLoad : Except String BotConfig
  newManager : Except String Unit
  tokenValid : Except String Unit
  newHandler : Except String Unit
  startOutcome : StartOutcome
deriving Repr

/-- Observable effects of `main`, in program order.  The four events
`stopAccepting`, `inFlightSettled`, `openFlushed`, `handlerStopped` happen
inside `telegram.BatchHandler.Start` on context cancellation; that code is
not in the snapshot and is modelled from the spec (§5 Cancellation). -/
inductive MainEvent
  | loadConfig
  | fatalExit
  | newLLMClient
  | newSheetsClient
  | newQueueManager
  | infoNoToken
  | warnWebOnly
  | healthServerStarted
  | handlerStartCall
  | stopAccepting
  | inFlightSettled
  | openFlushed
  | handlerStopped
  | waitCtxDone
  | shutdownComplete
  | storeClosed
deriving Repr, DecidableEq

/-- Embedded from `cmd/bot/main.go`: the sequence of effects `main`
performs, given the collaborator outcomes.  `log.Fatal` calls `os.Exit`,
which skips deferred calls, so those traces end at `fatalExit` and in
particular never reach `storeClosed` (the deferred
`queueManager.Close()`).  On a clean return the deferred Close runs after
the final "Bot shutdown complete" log.  The handler's shutdown behaviour
on cancellation is modelled from the spec (§5): stop accepting inbound
messages, let in-flight PROCESSING batches settle, flush still-OPEN
batches to CLOSED+persisted, then return `context.Canceled`. -/
def mainRun (env : MainEnv) : List MainEvent :=
  match env.configLoad with
  | Except.error _ => [MainEvent.loadConfig, MainEvent.fatalExit]
  | Except.ok cfg =>
    [MainEvent.loadConfig, MainEvent.newLLMClient, MainEvent.newSheetsClient]
      ++
      match env.newManager with
      | Except.error _ => [MainEvent.newQueueManager, MainEvent.fatalExit]
      | Except.ok _ =>
        [MainEvent.newQueueManager] ++
          if cfg.telegramToken = "" then
            [MainEvent.infoNoToken, MainEvent.healthServerStarted,
             MainEvent.waitCtxDone, MainEvent.shutdownComplete,
             MainEvent.storeClosed]
          else
            match env.tokenValid with
            | Except.error _ =>
              [MainEvent.warnWebOnly, MainEvent.healthServerStarted,
               MainEvent.waitCtxDone, MainEvent.shutdownComplete,
               MainEvent.storeClosed]
            | Except.ok _ =>
              match env.newHandler with
              | Except.error _ =>
                [MainEvent.warnWebOnly, MainEvent.healthServerStarted,
                 MainEvent.waitCtxDone, MainEvent.shutdownComplete,
                 MainEvent.storeClosed]
              | Except.ok _ =>
                [MainEvent.healthServerStarted, MainEvent.handlerStartCall]
                  ++
                  match env.startOutcome with
                  | StartOutcome.failed _ => [MainEvent.fatalExit]
                  | StartOutcome.canceled =>
                    [MainEvent.stopAccepting, MainEvent.inFlightSettled,
                     MainEvent.openFlushed, MainEvent.handlerStopped,
                     MainEvent.shutdownComplete, MainEvent.storeClosed]

/-! ### Claim theorems -/

/-- C1: in every execution where a crash hits right after the PROCESSING
batch's delivery collaborator call succeeded (the sink already holds one
record for the batch id) but before DELIVERED was persisted (the store
still says PROCESSING), re-processing that batch after restart — recovery,
dispatch, delivery call, persistence — produces no second delivered record
for its batch_id, and the batch still reaches DELIVERED. -/
theorem delivery_idempotent_after_crash {cfg : QCfg} {s : QMState}
    {bid w now1 now2 now3 : Nat} {b : Batch} (items : List String)
    (hb : getBatch s bid = some b) (hp : b.bstate = BState.PROCESSING)
    (hdel : sinkCount s.sink bid = 1) :
    sinkCount (reprocess cfg s bid w now1 now2 now3 items).sink bid = 1 ∧
    ∃ b', getBatch (reprocess cfg s bid w now1 now2 now3 items) bid
        = some b' ∧ b'.bstate = BState.DELIVERED := by
  constructor
  · have hsink : (reprocess cfg s bid w now1 now2 now3 items).sink =
        sinkAppend s.sink bid items := rfl
    rw [hsink, sinkAppend_of_delivered items (by omega)]
    exact hdel
  · have hpd : getBatch (reprocess cfg s bid w now1 now2 now3 items) bid =
        (getBatch ((((s.crash).recover cfg now1).dispatch now2 w
          bid).deliverCall bid items) bid).map
          (fun b0 => { b0 with bstate := BState.DELIVERED }) :=
      getBatch_persistDelivered
    have hdc : getBatch ((((s.crash).recover cfg now1).dispatch now2 w
        bid).deliverCall bid items) bid =
        getBatch (((s.crash).recover cfg now1).dispatch now2 w bid) bid := rfl
    have hcr : getBatch (s.crash) bid = getBatch s bid := rfl
    rw [hpd, hdc, getBatch_dispatch, getBatch_recover, hcr, hb]
    simp [hp]

/-- Concrete crash-window state: batch 0 is PROCESSING in the store, and
the sink already holds exactly one record for it. -/
def c1Batch : Batch :=
  { batch_id := 0, conversation_id := "c", message_ids := ["m"]
    bstate := BState.PROCESSING, attempt_count := 1, next_attempt_at := 0
    created_at := 0 }

def c1State : QMState :=
  { now := 0, nextBatchId := 1, batches := [c1Batch], messages := [cexMsg]
    deadlines := [], inFlight := [], sink := [(0, ["item"])] }

theorem delivery_idempotent_after_crash_witness :
    sinkCount c1State.sink 0 = 1 ∧
    sinkCount (reprocess defaultQCfg c1State 0 1 5 6 7 ["item"]).sink 0
      = 1 :=
  ⟨by decide,
   (@delivery_idempotent_after_crash defaultQCfg c1State 0 1 5 6 7 c1Batch
     ["item"] (by decide) (by decide) (by decide)).1⟩

/-- C2: startup recovery reloads every non-DELIVERED batch and every
message from the Durable Store: the record survives with the same id,
`message_ids` and `attempt_count`; a batch found PROCESSING is treated as
a transient failure — re-enqueued as CLOSED with a fresh
`next_attempt_at`, `attempt_count` unchanged — and any other state
resumes completely untouched. -/
theorem startup_recovery_preserves {cfg : QCfg} {s : QMState} {now : Nat}
    {b : Batch} (hb : b ∈ s.batches)
    (hnotdel : b.bstate ≠ BState.DELIVERED) :
    ((s.crash).recover cfg now).messages = s.messages ∧
    ∃ b' ∈ ((s.crash).recover cfg now).batches,
      b'.batch_id = b.batch_id ∧
      b'.attempt_count = b.attempt_count ∧
      b'.message_ids = b.message_ids ∧
      (b.bstate = BState.PROCESSING →
        b'.bstate = BState.CLOSED ∧
        b'.next_attempt_at = now + cfg.backoff b.attempt_count) ∧
      (b.bstate ≠ BState.PROCESSING → b' = b) := by
  refine ⟨rfl, ?_⟩
  by_cases hp : b.bstate = BState.PROCESSING
  · refine ⟨{ b with bstate := BState.CLOSED
                     next_attempt_at := now + cfg.backoff b.attempt_count },
      ?_, rfl, rfl, rfl, fun _ => ⟨rfl, rfl⟩,
      fun hcontra => absurd hp hcontra⟩
    have hgb : (if b.bstate = BState.PROCESSING then
        { b with bstate := BState.CLOSED
                 next_attempt_at := now + cfg.backoff b.attempt_count }
        else b) =
        { b with bstate := BState.CLOSED
                 next_attempt_at := now + cfg.backoff b.attempt_count } :=
      if_pos hp
    rw [← hgb]
    exact List.mem_map_of_mem _ hb
  · refine ⟨b, ?_, rfl, rfl, rfl, fun hcontra => absurd hcontra hp,
      fun _ => rfl⟩
    have hgb : (if b.bstate = BState.PROCESSING then
        { b with bstate := BState.CLOSED
                 next_attempt_at := now + cfg.backoff b.attempt_count }
        else b) = b := if_neg hp
    rw [← hgb]
    exact List.mem_map_of_mem _ hb

theorem startup_recovery_preserves_witness :
    ∃ b' ∈ ((c1State.crash).recover defaultQCfg 9).batches,
      b'.batch_id = c1Batch.batch_id ∧
      b'.attempt_count = c1Batch.attempt_count ∧
      b'.message_ids = c1Batch.message_ids ∧
      (c1Batch.bstate = BState.PROCESSING →
        b'.bstate = BState.CLOSED ∧
        b'.next_attempt_at = 9 + defaultQCfg.backoff c1Batch.attempt_count) ∧
      (c1Batch.bstate ≠ BState.PROCESSING → b' = c1Batch) :=
  (startup_recovery_preserves (by decide) (by decide)).2

/-- The spec's stronger invariant: no conversation ever holds two batches
simultaneously in {OPEN, CLOSED, PROCESSING}. -/
def noTwoLiveBatches (s : QMState) : Prop :=
  ∀ b1 ∈ s.batches, ∀ b2 ∈ s.batches,
    (b1.bstate = BState.OPEN ∨ b1.bstate = BState.CLOSED ∨
      b1.bstate = BState.PROCESSING) →
    (b2.bstate = BState.OPEN ∨ b2.bstate = BState.CLOSED ∨
      b2.bstate = BState.PROCESSING) →
    b1.conversation_id = b2.conversation_id → b1.batch_id = b2.batch_id

/-- C3 (counterexample): the claimed invariant fails on a reachable state.
Eleven `Add` calls for one conversation: the tenth flushes the OPEN batch
to CLOSED at `max_batch_size`, and the eleventh creates a fresh OPEN batch
while the CLOSED one is still undelivered — the conversation then holds
two batches in {OPEN, CLOSED, PROCESSING} at once. -/
theorem no_two_live_batches_cex :
    ¬ (∀ s : QMState, QReachable defaultQCfg s → noTwoLiveBatches s) := by
  intro h
  have hr := (addN_reachable defaultQCfg 11 initQM QReachable.init rfl).1
  have h2 := h _ hr
  unfold noTwoLiveBatches at h2
  exact absurd h2 (by decide)

/-- C3 (amended): in every reachable state each conversation has at most
one OPEN batch, and every operation — Add, TickExpired, the pipeline
transitions and crash/recovery — preserves this. -/
theorem at_most_one_open_batch_per_conversation {cfg : QCfg} {s : QMState}
    (h : QReachable cfg s) : atMostOneOpen s :=
  (QInv_reachable h).2.2.2.2

theorem at_most_one_open_batch_per_conversation_witness :
    atMostOneOpen (addN defaultQCfg 11 initQM) :=
  at_most_one_open_batch_per_conversation
    (addN_reachable defaultQCfg 11 initQM QReachable.init rfl).1

/-- C4: transient-failure retries follow the backoff policy.  (1) A
dispatch at a due time followed by a transient failure re-schedules the
batch CLOSED with `attempt_count` incremented and a strictly larger
`next_attempt_at` equal to `now + min (base * 2^(attempt_count-1)) cap`;
(2) a transient failure with the attempt budget exceeded dead-letters the
batch as FAILED; (3) once FAILED, no step of the system — including
crash/recovery — ever changes the record again, so it is never retried. -/
theorem retry_backoff_policy (cfg : QCfg) :
    (∀ (s : QMState) (bid w now1 now2 : Nat) (b : Batch),
      1 ≤ cfg.backoff_base → 1 ≤ cfg.backoff_cap →
      getBatch s bid = some b → b.bstate = BState.CLOSED →
      b.attempt_count + 1 ≤ cfg.max_attempts →
      b.next_attempt_at ≤ now1 → now1 ≤ now2 →
      ∃ b', getBatch ((s.dispatch now1 w bid).failTransient cfg now2 bid)
          bid = some b' ∧
        b'.bstate = BState.CLOSED ∧
        b'.attempt_count = b.attempt_count + 1 ∧
        b'.next_attempt_at = now2 +
          min (cfg.backoff_base * 2 ^ (b.attempt_count + 1 - 1))
            cfg.backoff_cap ∧
        b.next_attempt_at < b'.next_attempt_at) ∧
    (∀ (s : QMState) (now bid : Nat) (b : Batch),
      getBatch s bid = some b → cfg.max_attempts < b.attempt_count →
      ∃ b', getBatch (s.failTransient cfg now bid) bid = some b' ∧
        b'.bstate = BState.FAILED) ∧
    (∀ (s s' : QMState) (b : Batch), QReachable cfg s → QStep cfg s s' →
      b ∈ s.batches → b.bstate = BState.FAILED → b ∈ s'.batches) := by
  refine ⟨?_, ?_, ?_⟩
  · intro s bid w now1 now2 b hbase hcap hb hcl hac hdue h12
    exact failTransient_reschedules hbase hcap hb hcl hac hdue h12
  · intro s now bid b hb hex
    refine ⟨{ b with bstate := BState.FAILED }, ?_, rfl⟩
    rw [getBatch_failTransient, hb]
    simp [hex]
  · intro s s' b hr hst hb hf
    exact failed_is_frozen (QInv_reachable hr) hst hb hf

/-- The CLOSED batch produced by ten `Add` calls for conversation `"c"`,
and its PROCESSING and FAILED successors along a concrete pipeline run. -/
def cClosedBatch : Batch :=
  { batch_id := 0, conversation_id := "c"
    message_ids := ["m", "m", "m", "m", "m", "m", "m", "m", "m", "m"]
    bstate := BState.CLOSED, attempt_count := 0, next_attempt_at := 0
    created_at := 0 }

def cProcBatch : Batch :=
  { cClosedBatch with bstate := BState.PROCESSING, attempt_count := 1 }

def cFailedBatch : Batch :=
  { cClosedBatch with bstate := BState.FAILED, attempt_count := 1 }

/-- An exhausted PROCESSING batch (attempt budget exceeded). -/
def cExhausted : Batch :=
  { batch_id := 3, conversation_id := "c", message_ids := ["m"]
    bstate := BState.PROCESSING, attempt_count := 6, next_attempt_at := 0
    created_at := 0 }

def cExhaustedState : QMState :=
  { now := 0, nextBatchId := 4, batches := [cExhausted], messages := []
    deadlines := [], inFlight := [(1, 3)], sink := [] }

/-- The dead-letter state: dispatch batch 0 to worker 7, then fail it
permanently. -/
def cFailedState : QMState :=
  ((addN defaultQCfg 10 initQM).dispatch 0 7 0).failPermanent 0 0

theorem cFailedState_reachable : QReachable defaultQCfg cFailedState := by
  have hr10 := (addN_reachable defaultQCfg 10 initQM QReachable.init rfl).1
  have hdisp : QStep defaultQCfg (addN defaultQCfg 10 initQM)
      ((addN defaultQCfg 10 initQM).dispatch 0 7 0) :=
    QStep.dispatch _ 0 7 0 cClosedBatch (by decide) (by decide) (by decide)
      (by decide)
  have hfp : QStep defaultQCfg ((addN defaultQCfg 10 initQM).dispatch 0 7 0)
      cFailedState :=
    QStep.failPermanent _ 0 7 0 cProcBatch (by decide) (by decide)
      (by decide) (by decide)
  exact QReachable.step _ _ (QReachable.step _ _ hr10 hdisp) hfp

theorem retry_backoff_policy_witness :
    (∃ b', getBatch (((addN defaultQCfg 10 initQM).dispatch 0 7
          0).failTransient defaultQCfg 3 0) 0 = some b' ∧
      b'.bstate = BState.CLOSED ∧
      b'.attempt_count = cClosedBatch.attempt_count + 1 ∧
      b'.next_attempt_at = 3 +
        min (defaultQCfg.backoff_base *
          2 ^ (cClosedBatch.attempt_count + 1 - 1)) defaultQCfg.backoff_cap ∧
      cClosedBatch.next_attempt_at < b'.next_attempt_at) ∧
    (∃ b', getBatch (cExhaustedState.failTransient defaultQCfg 2 3) 3
        = some b' ∧ b'.bstate = BState.FAILED) ∧
    cFailedBatch ∈ ((cFailedState.TickExpired 5).1).batches :=
  ⟨(retry_backoff_policy defaultQCfg).1 (addN defaultQCfg 10 initQM) 0 7 0 3
     cClosedBatch (by decide) (by decide) (by decide) (by decide) (by decide)
     (by decide) (by decide),
   (retry_backoff_policy defaultQCfg).2.1 cExhaustedState 2 3 cExhausted
     (by decide) (by decide),
   (retry_backoff_policy defaultQCfg).2.2 cFailedState
     ((cFailedState.TickExpired 5).1) cFailedBatch cFailedState_reachable
     (QStep.tick cFailedState 5 (by decide)) (by decide) (by decide)⟩

/-- C5: the Queue Manager never hands one batch to two workers at once —
in every reachable state, any two in-flight assignments of the same
`batch_id` are the same worker, so there is never more than one in-flight
delivery attempt per batch. -/
theorem single_worker_per_batch {cfg : QCfg} {s : QMState}
    (h : QReachable cfg s) :
    ∀ w1 w2 bid : Nat, (w1, bid) ∈ s.inFlight → (w2, bid) ∈ s.inFlight →
      w1 = w2 := by
  have hnd := (QInv_reachable h).2.2.2.1
  intro w1 w2 bid h1 h2
  have hpair : ((w1, bid) : Nat × Nat) = (w2, bid) :=
    List.inj_on_of_nodup_map hnd h1 h2 rfl
  exact congrArg Prod.fst hpair

/-- A reachable state with one in-flight assignment: batch 0 held by
worker 7. -/
def c5State : QMState := (addN defaultQCfg 10 initQM).dispatch 0 7 0

theorem c5State_reachable : QReachable defaultQCfg c5State := by
  have hr10 := (addN_reachable defaultQCfg 10 initQM QReachable.init rfl).1
  exact QReachable.step _ _ hr10
    (QStep.dispatch _ 0 7 0 cClosedBatch (by decide) (by decide) (by decide)
      (by decide))

theorem single_worker_per_batch_witness :
    (7, 0) ∈ c5State.inFlight ∧ 7 = 7 :=
  ⟨by decide,
   single_worker_per_batch c5State_reachable 7 7 0 (by decide) (by decide)⟩

/-- C6: any nonempty sequence of `Add` calls for one conversation whose
total is at most `max_batch_size` and whose inter-arrival gaps all stay
within the idle window produces exactly one batch, containing all the
added messages in receipt order. -/
theorem single_batch_within_window (cfg : QCfg) (c : String)
    (arrivals : List (Nat × Message)) (hne : arrivals ≠ [])
    (hlen : arrivals.length ≤ cfg.max_batch_size)
    (hconv : ∀ p ∈ arrivals, p.2.conversation_id = c)
    (hgaps : gapsOK cfg arrivals) :
    ∃ b, (runConv cfg initQM arrivals).batches = [b] ∧
      b.message_ids = arrivals.map (fun p => p.2.id) ∧
      b.conversation_id = c := by
  cases arrivals with
  | nil => exact absurd rfl hne
  | cons hd rest =>
    obtain ⟨t0, m0⟩ := hd
    have hm0 : m0.conversation_id = c := hconv (t0, m0) (by simp)
    have hchain : chainOK cfg t0 rest := hgaps
    have hrun : runConv cfg initQM ((t0, m0) :: rest) =
        runConv cfg ((initQM.TickExpired t0).1.Add cfg t0 c m0).1 rest := by
      simp only [runConv, hm0]
    rw [hrun]
    by_cases hone : cfg.max_batch_size ≤ 1
    · have hrest : rest = [] := by
        simp only [List.length_cons] at hlen
        have hz : rest.length = 0 := by omega
        exact List.length_eq_zero.1 hz
      subst hrest
      refine ⟨{ batch_id := 0, conversation_id := c
                message_ids := [m0.id], bstate := BState.CLOSED
                attempt_count := 0, next_attempt_at := 0
                created_at := t0 }, ?_, by simp, rfl⟩
      simp [runConv, QMState.TickExpired, QMState.Add, initQM, expiredConvs,
        findOpenBatch, hone]
    · have h1b : ((initQM.TickExpired t0).1.Add cfg t0 c m0).1.batches =
          [{ batch_id := 0, conversation_id := c, message_ids := [m0.id]
             bstate := BState.OPEN, attempt_count := 0
             next_attempt_at := 0, created_at := t0 }] := by
        simp [QMState.TickExpired, QMState.Add, initQM, expiredConvs,
          findOpenBatch, hone]
      have h1d : ((initQM.TickExpired t0).1.Add cfg t0 c m0).1.deadlines =
          [(c, t0 + cfg.idle_window)] := by
        simp [QMState.TickExpired, QMState.Add, initQM, expiredConvs,
          findOpenBatch, hone, setDeadline]
      have hlen2 : (1 : Nat) + rest.length ≤ cfg.max_batch_size := by
        simp only [List.length_cons] at hlen
        omega
      obtain ⟨b', hb1, hb2, hb3⟩ :=
        runConv_extends cfg c rest ((initQM.TickExpired t0).1.Add cfg t0 c
          m0).1
          { batch_id := 0, conversation_id := c, message_ids := [m0.id]
            bstate := BState.OPEN, attempt_count := 0
            next_attempt_at := 0, created_at := t0 }
          t0 h1b rfl rfl h1d (fun p hp => hconv p (by simp [hp]))
          (by simpa using hlen2) hchain
      exact ⟨b', hb1, by simpa using hb2, hb3⟩

/-- The spec's §8 example arrivals: "buy milk" at t=0 and "call mom" at
t=5 for conversation `"c1"`, idle window 30. -/
def exampleArrivals : List (Nat × Message) :=
  [(0, { id := "m1", conversation_id := "c1", text := "buy milk"
         received_at := 0 }),
   (5, { id := "m2", conversation_id := "c1", text := "call mom"
         received_at := 5 })]

theorem single_batch_within_window_witness :
    ∃ b, (runConv defaultQCfg initQM exampleArrivals).batches = [b] ∧
      b.message_ids = exampleArrivals.map (fun p => p.2.id) ∧
      b.conversation_id = "c1" :=
  single_batch_within_window defaultQCfg "c1" exampleArrivals (by decide)
    (by decide) (by decide) ⟨by decide, by decide, trivial⟩

/-- C7: an `Add` that brings the conversation's OPEN batch to exactly
`max_batch_size` messages returns `flushed = true` and closes the batch
immediately, whatever the inactivity deadline currently is. -/
theorem add_reaching_cap_flushes {cfg : QCfg} {s : QMState} {conv : String}
    {msg : Message} {now : Nat} {b : Batch}
    (hfo : findOpenBatch s.batches conv = some b)
    (hlen : b.message_ids.length + 1 = cfg.max_batch_size) :
    (s.Add cfg now conv msg).2.2 = true ∧
    ∀ b' ∈ (s.Add cfg now conv msg).1.batches,
      b'.batch_id = b.batch_id → b'.bstate = BState.CLOSED := by
  have hflu : decide (cfg.max_batch_size ≤
      (b.message_ids ++ [msg.id]).length) = true := by
    simp only [List.length_append, List.length_cons, List.length_nil,
      decide_eq_true_eq]
    omega
  constructor
  · simp [QMState.Add, hfo, hflu]
    omega
  · intro b' hb' hid
    simp only [QMState.Add, hfo] at hb'
    obtain ⟨a, ha, rfl⟩ := mem_updateBatch_iff.1 hb'
    by_cases e : a.batch_id = b.batch_id
    · rw [if_pos e]
      simp [hflu]
      omega
    · rw [if_neg e] at hid ⊢
      exact absurd hid e

/-- A conversation one message short of the size cap. -/
def c7Batch : Batch :=
  { batch_id := 0, conversation_id := "c"
    message_ids := ["1", "2", "3", "4", "5", "6", "7", "8", "9"]
    bstate := BState.OPEN, attempt_count := 0, next_attempt_at := 0
    created_at := 0 }

def c7State : QMState :=
  { now := 0, nextBatchId := 1, batches := [c7Batch], messages := []
    deadlines := [("c", 30)], inFlight := [], sink := [] }

theorem add_reaching_cap_flushes_witness :
    (c7State.Add defaultQCfg 9 "c" cexMsg).2.2 = true :=
  (@add_reaching_cap_flushes defaultQCfg c7State "c" cexMsg 9 c7Batch
    (by decide) (by decide)).1

/-- C8: when `config.Load` returns an error, `main` is fatal immediately
(`log.Fatal` → `os.Exit`): the trace is exactly load-then-exit, so the LLM
client, the sheets client and the queue manager are never constructed and
the process never begins accepting messages. -/
theorem config_error_is_fatal {env : MainEnv} {e : String}
    (h : env.configLoad = Except.error e) :
    mainRun env = [MainEvent.loadConfig, MainEvent.fatalExit] ∧
    MainEvent.newLLMClient ∉ mainRun env ∧
    MainEvent.newSheetsClient ∉ mainRun env ∧
    MainEvent.newQueueManager ∉ mainRun env ∧
    MainEvent.handlerStartCall ∉ mainRun env := by
  simp [mainRun, h]

def c8Env : MainEnv :=
  { configLoad := Except.error "missing OPENROUTER_API_KEY"
    newManager := Except.ok (), tokenValid := Except.ok ()
    newHandler := Except.ok (), startOutcome := StartOutcome.canceled }

theorem config_error_is_fatal_witness :
    mainRun c8Env = [MainEvent.loadConfig, MainEvent.fatalExit] :=
  (@config_error_is_fatal c8Env "missing OPENROUTER_API_KEY" rfl).1

/-- C9: on the shutdown signal (context cancelled, `handler.Start`
returning `context.Canceled`), `main`'s effect trace first stops accepting
inbound messages, settles in-flight PROCESSING batches, flushes still-OPEN
batches, stops the handler — and only after all of that runs the deferred
`queueManager.Close()` (`storeClosed`), which in particular comes after
the handler has fully stopped. -/
theorem shutdown_closes_store_last {env : MainEnv} {cfg : BotConfig}
    (hc : env.configLoad = Except.ok cfg)
    (hm : env.newManager = Except.ok ())
    (ht : cfg.telegramToken ≠ "")
    (hv : env.tokenValid = Except.ok ())
    (hh : env.newHandler = Except.ok ())
    (hs : env.startOutcome = StartOutcome.canceled) :
    mainRun env =
      [MainEvent.loadConfig, MainEvent.newLLMClient,
       MainEvent.newSheetsClient, MainEvent.newQueueManager,
       MainEvent.healthServerStarted, MainEvent.handlerStartCall,
       MainEvent.stopAccepting, MainEvent.inFlightSettled,
       MainEvent.openFlushed, MainEvent.handlerStopped,
       MainEvent.shutdownComplete, MainEvent.storeClosed] ∧
    ((mainRun env).indexOf MainEvent.stopAccepting <
       (mainRun env).indexOf MainEvent.storeClosed ∧
     (mainRun env).indexOf MainEvent.inFlightSettled <
       (mainRun env).indexOf MainEvent.storeClosed ∧
     (mainRun env).indexOf MainEvent.openFlushed <
       (mainRun env).indexOf MainEvent.storeClosed ∧
     (mainRun env).indexOf MainEvent.handlerStopped <
       (mainRun env).indexOf MainEvent.storeClosed) := by
  have htrace : mainRun env =
      [MainEvent.loadConfig, MainEvent.newLLMClient,
       MainEvent.newSheetsClient, MainEvent.newQueueManager,
       MainEvent.healthServerStarted, MainEvent.handlerStartCall,
       MainEvent.stopAccepting, MainEvent.inFlightSettled,
       MainEvent.openFlushed, MainEvent.handlerStopped,
       MainEvent.shutdownComplete, MainEvent.storeClosed] := by
    simp [mainRun, hc, hm, ht, hv, hh, hs]
  refine ⟨htrace, ?_⟩
  rw [htrace]
  refine ⟨by decide, by decide, by decide, by decide⟩

def c9Env : MainEnv :=
  { configLoad := Except.ok
      { openRouterAPIKey := "k", googleScriptURL := "u"
        databasePath := "p", telegramToken := "tok" }
    newManager := Except.ok (), tokenValid := Except.ok ()
    newHandler := Except.ok (), startOutcome := StartOutcome.canceled }

theorem shutdown_closes_store_last_witness :
    mainRun c9Env =
      [MainEvent.loadConfig, MainEvent.newLLMClient,
       MainEvent.newSheetsClient, MainEvent.newQueueManager,
       MainEvent.healthServerStarted, MainEvent.handlerStartCall,
       MainEvent.stopAccepting, MainEvent.inFlightSettled,
       MainEvent.openFlushed, MainEvent.handlerStopped,
       MainEvent.shutdownComplete, MainEvent.storeClosed] :=
  (@shutdown_closes_store_last c9Env
    { openRouterAPIKey := "k", googleScriptURL := "u"
      databasePath := "p", telegramToken := "tok" }
    rfl rfl (by decide) rfl rfl rfl).1

/-- C10: with an empty token, a token failing validation, or a failing
handler construction, `main` does not exit: no fatal event, the chat
handler never starts (no messages accepted), the health server still
starts, and the process blocks until the SIGINT/SIGTERM cancellation and
then shuts down cleanly. -/
theorem web_only_mode_on_bad_token {env : MainEnv} {cfg : BotConfig}
    (hc : env.configLoad = Except.ok cfg)
    (hm : env.newManager = Except.ok ())
    (hbad : cfg.telegramToken = "" ∨
      (∃ e, env.tokenValid = Except.error e) ∨
      (∃ e, env.newHandler = Except.error e)) :
    MainEvent.fatalExit ∉ mainRun env ∧
    MainEvent.handlerStartCall ∉ mainRun env ∧
    MainEvent.healthServerStarted ∈ mainRun env ∧
    MainEvent.waitCtxDone ∈ mainRun env ∧
    MainEvent.shutdownComplete ∈ mainRun env ∧
    MainEvent.storeClosed ∈ mainRun env := by
  by_cases ht : cfg.telegramToken = ""
  · simp [mainRun, hc, hm, ht]
  · rcases hbad with ht' | ⟨e, hv⟩ | ⟨e, hh⟩
    · exact absurd ht' ht
    · simp [mainRun, hc, hm, ht, hv]
    · cases hv : env.tokenValid with
      | error e2 => simp [mainRun, hc, hm, ht, hv]
      | ok u => simp [mainRun, hc, hm, ht, hv, hh]

def c10Env : MainEnv :=
  { configLoad := Except.ok
      { openRouterAPIKey := "k", googleScriptURL := "u"
        databasePath := "p", telegramToken := "bad token" }
    newManager := Except.ok ()
    tokenValid := Except.error "invalid token format"
    newHandler := Except.ok (), startOutcome := StartOutcome.canceled }

theorem web_only_mode_on_bad_token_witness :
    MainEvent.handlerStartCall ∉ mainRun c10Env ∧
    MainEvent.healthServerStarted ∈ mainRun c10Env :=
  ⟨(@web_only_mode_on_bad_token c10Env
      { openRouterAPIKey := "k", googleScriptURL := "u"
        databasePath := "p", telegramToken := "bad token" }
      rfl rfl (Or.inr (Or.inl ⟨"invalid token format", rfl⟩))).2.1,
   (@web_only_mode_on_bad_token c10Env
      { openRouterAPIKey := "k", googleScriptURL := "u"
        databasePath := "p", telegramToken := "bad token" }
      rfl rfl (Or.inr (Or.inl ⟨"invalid token format", rfl⟩))).2.2.1⟩
